import Mathlib

/-!
Shallow embedding of the tonal-analysis core of the bpm-key-detector
repository (stage3-plugin/Source): `BPMDetector` and `KeyDetector`.

Modelling conventions:
* C++ `float`/`double` arithmetic is modelled exactly over `ℚ` (and over `ℝ`
  at the specification level where square roots and logarithms occur).
* A `const float*` buffer plus sample count is modelled as a function
  `ℕ → ℚ` together with a length `n : ℕ`.
* The Hann windowing, the `juce::dsp::FFT` transform and the per-bin
  magnitude `sqrt(re^2+im^2)` (external JUCE library code, transcendental)
  are abstracted as a parameter `mag : (ℕ → ℚ) → ℕ → ℚ` mapping the raw
  samples of one analysis frame to its magnitude spectrum, one value per
  bin.  Every theorem below quantifies over `mag`, so each holds in
  particular for the true windowed-FFT magnitude function.  Where a
  concrete instance is used for a counterexample we use the zero function
  on all-zero frames, which is the value of the true framer on silence
  (the window and the FFT are linear, and the magnitude of 0 is 0).
* C++ `static_cast<int>` on a nonnegative value truncates toward zero;
  it is modelled by `Int.tdiv` on the numerator and denominator.
-/

/-- C++ `static_cast<int>` applied to a float value, i.e. truncation
toward zero, modelled on `ℚ`. -/
def cppTrunc (q : ℚ) : ℤ :=
  Int.tdiv q.num q.den

/-- `juce::jlimit lo hi v`: clamp `v` into `[lo, hi]`
(`v < lo ? lo : (hi < v ? hi : v)`). -/
def jlimit (lo hi v : ℚ) : ℚ :=
  if v < lo then lo else if hi < v then hi else v

namespace BPMDetector

/-- `BPMDetector::fftSize` (2048-point FFT). -/
def fftSize : ℕ := 2048

/-- `BPMDetector::hopSize`. -/
def hopSize : ℕ := 512

/-- The raw samples of analysis frame `f`: `audioData + frame * hopSize`. -/
def frameAt (audio : ℕ → ℚ) (f : ℕ) : ℕ → ℚ :=
  fun i => audio (f * hopSize + i)

/-- `numFrames = (numSamples - fftSize) / hopSize` (integer division; for
`numSamples < fftSize` the C++ quotient is nonpositive and the frame loop
does not run, which agrees with truncated subtraction on `ℕ`). -/
def numFrames (numSamples : ℕ) : ℕ :=
  (numSamples - fftSize) / hopSize

/-- Magnitude spectrum of frame `f`: the windowed FFT magnitudes of the
frame samples, via the abstracted framer `mag`. -/
def spectrumAt (mag : (ℕ → ℚ) → ℕ → ℚ) (audio : ℕ → ℚ) (f : ℕ) : ℕ → ℚ :=
  mag (frameAt audio f)

/-- `prevSpectrum` seen by frame `f`: all zeros for the first frame,
otherwise the spectrum of frame `f - 1`. -/
def prevSpectrumAt (mag : (ℕ → ℚ) → ℕ → ℚ) (audio : ℕ → ℚ) : ℕ → ℕ → ℚ
  | 0 => fun _ => 0
  | f + 1 => spectrumAt mag audio f

/-- Spectral flux of one frame against the previous spectrum: the sum over
bins `[0, fftSize/2)` of the positive part of the magnitude increase
(`if (diff > 0) flux += diff`). -/
def flux (spectrum prevSpectrum : ℕ → ℚ) : ℚ :=
  ∑ i in Finset.range (fftSize / 2), max 0 (spectrum i - prevSpectrum i)

/-- `BPMDetector::calculateOnsetStrength`: one flux value per frame, the
`prevSpectrum` state threading through the loop being exactly the previous
frame's spectrum (zero before the first frame). -/
def calculateOnsetStrength (mag : (ℕ → ℚ) → ℕ → ℚ) (audio : ℕ → ℚ)
    (numSamples : ℕ) : List ℚ :=
  (List.range (numFrames numSamples)).map
    (fun f => flux (spectrumAt mag audio f) (prevSpectrumAt mag audio f))

/-- `BPMDetector::autocorrelate`: mean of `signal[i] * signal[i+lag]` over
the `signal.size() - lag` valid offsets, `0` when there are none.  (In the
program `lag < signal.size() / 2`, so the unsigned subtraction in the C++
loop bound never wraps.) -/
def autocorrelate (signal : List ℚ) (lag : ℕ) : ℚ :=
  let count := signal.length - lag
  if 0 < count then
    (∑ i in Finset.range count, signal.getD i 0 * signal.getD (i + lag) 0)
      / (count : ℚ)
  else 0

/-- The autocorrelation search loop of `estimateTempoFromOnsets`: starting
from `maxCorr = 0, bestLag = 0`, update `(maxCorr, bestLag)` on strict
improvement only. -/
def lagSearch (signal : List ℚ) (lags : List ℕ) : ℚ × ℕ :=
  lags.foldl
    (fun st lag =>
      let corr := autocorrelate signal lag
      if st.1 < corr then (corr, lag) else st)
    (0, 0)

/-- The list of candidate lags `[minLag, maxLagRange)` searched by
`estimateTempoFromOnsets` for a given sample rate and envelope length.
`minLag = int(framesPerSecond*60/240)`, and `maxLagRange` is
`int(framesPerSecond*60/40)` capped by `envelopeLength / 2`.  (`prepare`
is always called with a positive host sample rate, so the truncated
values are nonnegative and `Int.toNat` is faithful.) -/
def searchLags (sampleRate : ℚ) (len : ℕ) : List ℕ :=
  let framesPerSecond := sampleRate / (hopSize : ℚ)
  let minLag := (cppTrunc (framesPerSecond * 60 / 240)).toNat
  let maxLagRange := min ((cppTrunc (framesPerSecond * 60 / 40)).toNat) (len / 2)
  List.range' minLag (maxLagRange - minLag)

/-- The `bestLag` found by the autocorrelation search. -/
def bestLagOf (sampleRate : ℚ) (signal : List ℚ) : ℕ :=
  (lagSearch signal (searchLags sampleRate signal.length)).2

/-- `BPMDetector::estimateTempoFromOnsets`: `0` for envelopes shorter than
10 elements, `0` when no lag strictly improved on `maxCorr = 0`, otherwise
`(1 / bestLag) * framesPerSecond * 60`. -/
def estimateTempoFromOnsets (sampleRate : ℚ) (onsetStrength : List ℚ) : ℚ :=
  if onsetStrength.length < 10 then 0
  else
    let framesPerSecond := sampleRate / (hopSize : ℚ)
    let bestLag := bestLagOf sampleRate onsetStrength
    if bestLag = 0 then 0
    else 1 / (bestLag : ℚ) * framesPerSecond * 60

/-- Mean of the onset-strength envelope (`meanOnset`). -/
def envMean (l : List ℚ) : ℚ :=
  l.sum / (l.length : ℚ)

/-- Population variance of the onset-strength envelope: the mean of the
squared deviations from `envMean`. -/
def envVariance (l : List ℚ) : ℚ :=
  ((l.map (fun v => (v - envMean l) * (v - envMean l))).sum) / (l.length : ℚ)

/-- `BPMDetector::detectBPM`, with the mutable `confidence` member passed
in and returned explicitly: the result is `(returned bpm, confidence field
after the call)`.  Early returns leave the field untouched. -/
def detectBPM (mag : (ℕ → ℚ) → ℕ → ℚ) (sampleRate : ℚ) (audio : ℕ → ℚ)
    (numSamples : ℕ) (confidence : ℚ) : ℚ × ℚ :=
  if numSamples < fftSize then (0, confidence)
  else
    let onsetStrength := calculateOnsetStrength mag audio numSamples
    if onsetStrength = [] then (0, confidence)
    else
      let bpm := estimateTempoFromOnsets sampleRate onsetStrength
      if bpm < 40 ∨ 240 < bpm then (120, 3/10)
      else (bpm, jlimit 0 1 (envVariance onsetStrength * 10))

end BPMDetector

namespace KeyDetector

/-- `KeyDetector::fftSize` (4096-point FFT). -/
def fftSize : ℕ := 4096

/-- `KeyDetector::hopSize`. -/
def hopSize : ℕ := 512

/-- Krumhansl-Schmuckler major profile (`KeyDetector::majorProfile`). -/
def majorProfile : ℕ → ℚ := fun i =>
  [6.35, 2.23, 3.48, 2.33, 4.38, 4.09, 2.52, 5.19, 2.39, 3.66, 2.29, 2.88].getD i 0

/-- Krumhansl-Schmuckler minor profile (`KeyDetector::minorProfile`). -/
def minorProfile : ℕ → ℚ := fun i =>
  [6.33, 2.68, 3.52, 5.38, 2.60, 3.53, 2.54, 4.75, 3.98, 2.69, 3.34, 3.17].getD i 0

/-- `KeyDetector::pitchClasses` name table (root 0 through 11; the array
is only ever indexed with `0 ≤ root < 12`, so the catch-all is never
reached in the program). -/
def pitchClasses : ℕ → String
  | 0 => "C"
  | 1 => "C#"
  | 2 => "D"
  | 3 => "D#"
  | 4 => "E"
  | 5 => "F"
  | 6 => "F#"
  | 7 => "G"
  | 8 => "G#"
  | 9 => "A"
  | 10 => "A#"
  | 11 => "B"
  | _ => "C"

/-- Sum of a 12-element vector (the `for i in 0..12` accumulation loops). -/
def sum12 (f : ℕ → ℚ) : ℚ :=
  ∑ i in Finset.range 12, f i

/-- Mean of a 12-element vector (`meanX`, `meanY` in `correlation`). -/
def mean12 (x : ℕ → ℚ) : ℚ :=
  sum12 x / 12

/-- Sum of squared deviations from the mean: the value accumulated in
`stdX` (resp. `stdY`) in `KeyDetector::correlation` before the final
`std::sqrt`, so the source's `stdX` is `Real.sqrt (sqDev x)`. -/
def sqDev (x : ℕ → ℚ) : ℚ :=
  sum12 (fun i => (x i - mean12 x) * (x i - mean12 x))

/-- The covariance accumulated in `KeyDetector::correlation`. -/
def covar (x y : ℕ → ℚ) : ℚ :=
  sum12 (fun i => (x i - mean12 x) * (y i - mean12 y))

/-- Specification-level embedding of `KeyDetector::correlation`, literal up
to `stdX = Real.sqrt (sqDev x)`, `stdY = Real.sqrt (sqDev y)`: the result
`c` is `0` when either standard deviation is below `1e-10`, and the
Pearson coefficient `covariance / (stdX * stdY)` otherwise. -/
def correlationR (x y : ℕ → ℚ) (c : ℝ) : Prop :=
  (Real.sqrt (sqDev x) < 1e-10 ∨ Real.sqrt (sqDev y) < 1e-10 → c = 0) ∧
  (¬(Real.sqrt (sqDev x) < 1e-10 ∨ Real.sqrt (sqDev y) < 1e-10) →
    c = (covar x y : ℝ) / (Real.sqrt (sqDev x) * Real.sqrt (sqDev y)))

/-- Executable rational encoding of `KeyDetector::correlation`: the image
of the correlation value `c` under the strictly increasing map
`t ↦ t * |t|`.  Since `stdX < 1e-10 ↔ sqDev x < 1e-20` (both sides
nonnegative) and `c * |c| = cov * |cov| / (sqDev x * sqDev y)`, this is a
rational-arithmetic encoding that preserves every comparison the key
search performs; the bridge is proved in the development below. -/
def correlationCmp (x y : ℕ → ℚ) : ℚ :=
  if sqDev x < 1e-20 ∨ sqDev y < 1e-20 then 0
  else covar x y * |covar x y| / (sqDev x * sqDev y)

/-- One iteration of the root loop in `KeyDetector::findBestKey`: rotate
both profiles by `root` (`rotated[i] = profile[(i + root) % 12]`), then
update the running `(maxCorrelation, bestKey, bestMode)` state on strict
improvement, major first, then minor. -/
def stepRoot (c : ℕ → ℚ) (st : ℚ × String × String) (root : ℕ) :
    ℚ × String × String :=
  let majorCorr := correlationCmp c (fun i => majorProfile ((i + root) % 12))
  let st1 := if st.1 < majorCorr then (majorCorr, pitchClasses root, "major") else st
  let minorCorr := correlationCmp c (fun i => minorProfile ((i + root) % 12))
  if st1.1 < minorCorr then (minorCorr, pitchClasses root, "minor") else st1

/-- `KeyDetector::findBestKey`, returning `(bestKey, bestMode,
maxCorrelation)` with the correlation kept in the `t * |t|` encoding.
`maxCorrelation` starts at `-1` (a fixed point of the encoding). -/
def findBestKey (c : ℕ → ℚ) : String × String × ℚ :=
  let st := (List.range 12).foldl (stepRoot c) (-1, "C", "major")
  (st.2.1, st.2.2, st.1)

/-- The two `(key, mode, correlation)` candidates contributed by one root,
major first. -/
def rootCands (c : ℕ → ℚ) (root : ℕ) : List (String × String × ℚ) :=
  [(pitchClasses root, "major",
      correlationCmp c (fun i => majorProfile ((i + root) % 12))),
   (pitchClasses root, "minor",
      correlationCmp c (fun i => minorProfile ((i + root) % 12)))]

/-- The 24 `(key, mode, correlation)` candidates in the exact order
`findBestKey` scans them: roots ascending, major before minor. -/
def candidates (c : ℕ → ℚ) : List (String × String × ℚ) :=
  (List.range 12).flatMap (rootCands c)

/-- The maximal candidate correlation, folded with the `-1` start value of
`maxCorrelation`. -/
def maxCand (c : ℕ → ℚ) : ℚ :=
  ((candidates c).map (fun t => t.2.2)).foldr max (-1)

/-- One strict-improvement update of the running best against one
candidate triple: the update both branches of the root loop perform. -/
def scanStep (st : ℚ × String × String) (t : String × String × ℚ) :
    ℚ × String × String :=
  if st.1 < t.2.2 then (t.2.2, t.1, t.2.1) else st

/-- Center frequency of FFT bin `bin`: `bin * sampleRate / fftSize`. -/
def binFreq (sampleRate : ℚ) (bin : ℕ) : ℚ :=
  (bin : ℚ) * sampleRate / (fftSize : ℚ)

/-- Specification of `static_cast<int>(frequencyToPitchClass f)`: for the
frequencies the chromagram loop admits (`27.5 ≤ f`, hence MIDI note
`≥ 21 ≥ 0`), `fmod(midiNote, 12)` lies in `[0, 12)` and truncation equals
flooring, so the integer produced is `⌊69 + 12 * log2 (f / 440)⌋ mod 12`. -/
def pcSpec (f : ℚ) (k : ℕ) : Prop :=
  (k : ℤ) = ⌊(69 : ℝ) + 12 * Real.logb 2 ((f : ℝ) / 440)⌋ % 12

/-- `pc` agrees with `frequencyToPitchClass` on all admissible
frequencies. -/
def PCModel (pc : ℚ → ℕ) : Prop :=
  ∀ f : ℚ, (27.5 : ℚ) ≤ f → pcSpec f (pc f)

/-- `KeyDetector::calculateChromagram`, with the windowed-FFT magnitudes
abstracted as `mag` and the (transcendental) `frequencyToPitchClass`
truncation abstracted as `pc`.  Bins `1 ≤ bin < fftSize/2` whose center
frequency lies in `[27.5, 4186]` contribute their magnitude to chromagram
slot `pc (binFreq sampleRate bin) % 12`; all frames accumulate. -/
def calculateChromagram (mag : (ℕ → ℚ) → ℕ → ℚ) (pc : ℚ → ℕ)
    (sampleRate : ℚ) (audio : ℕ → ℚ) (numSamples : ℕ) : ℕ → ℚ :=
  fun k =>
    ∑ f in Finset.range ((numSamples - fftSize) / hopSize),
      ∑ bin in Finset.Ico 1 (fftSize / 2),
        if (27.5 ≤ binFreq sampleRate bin ∧ binFreq sampleRate bin ≤ 4186) ∧
            pc (binFreq sampleRate bin) % 12 = k
        then mag (fun i => audio (f * hopSize + i)) bin
        else 0

/-- The normalization step of `detectKey`: divide every chromagram slot by
the total when the total is positive, otherwise leave the chromagram
unchanged. -/
def normalizeStep (ch : ℕ → ℚ) : ℕ → ℚ :=
  if 0 < sum12 ch then fun i => ch i / sum12 ch else ch

/-- The confidence component of a `detectKey` result: either a float
literal from an early return, or the value `clamp((maxCorrelation+1)/2,
0, 1)` with `maxCorrelation` carried in the `t * |t|` encoding. -/
inductive KeyConf
  | lit (q : ℚ)
  | fromBest (g : ℚ)
deriving DecidableEq

/-- The real confidence value denoted by a `KeyConf`: `jlimit 0 1
((maxCorrelation + 1) / 2)` where `maxCorrelation * |maxCorrelation|` is
the stored encoding (the clamp is written with `max`/`min`, equal to the
conditional chain of `juce::jlimit`). -/
def keyConfVal : KeyConf → ℝ → Prop
  | .lit q => fun r => r = (q : ℝ)
  | .fromBest g => fun r =>
      ∃ u : ℝ, u * |u| = (g : ℝ) ∧ r = max 0 (min 1 ((u + 1) / 2))

/-- `KeyDetector::detectKey`: sentinel `("C", "major", 0)` for short
buffers, otherwise chromagram, normalization and `findBestKey`. -/
def detectKey (mag : (ℕ → ℚ) → ℕ → ℚ) (pc : ℚ → ℕ) (sampleRate : ℚ)
    (audio : ℕ → ℚ) (numSamples : ℕ) : String × String × KeyConf :=
  if numSamples < fftSize then ("C", "major", KeyConf.lit 0)
  else
    let ch := normalizeStep (calculateChromagram mag pc sampleRate audio numSamples)
    let r := findBestKey ch
    (r.1, r.2.1, KeyConf.fromBest r.2.2)

end KeyDetector

/-! State machine for the two detector objects held by the plugin
processor: `prepare` writes the sample-rate context of both detectors,
`detectBPM` additionally mutates the BPM detector's `confidence` member
(initialized to `0.5f`), `detectKey` holds no mutable state. -/

/-- The mutable state of the detector pair. -/
structure DetectorState where
  sampleRate : ℚ
  confidence : ℚ
deriving DecidableEq

/-- Initial members: `sampleRate = 44100.0`, `confidence = 0.5f`. -/
def initState : DetectorState := ⟨44100, 1/2⟩

/-- One call into the detector pair. -/
inductive DetectorCall
  | prepare (sr : ℚ)
  | detectB (audio : ℕ → ℚ) (n : ℕ)
  | detectK (audio : ℕ → ℚ) (n : ℕ)

/-- Observable output of one call. -/
inductive DetectorOut
  | silent
  | bpmOut (bpm : ℚ)
  | keyOut (r : String × String × KeyDetector.KeyConf)

/-- The step function of the detector pair. -/
def stepCall (magB magK : (ℕ → ℚ) → ℕ → ℚ) (pc : ℚ → ℕ)
    (s : DetectorState) : DetectorCall → DetectorState × DetectorOut
  | .prepare sr => (⟨sr, s.confidence⟩, .silent)
  | .detectB audio n =>
      let r := BPMDetector.detectBPM magB s.sampleRate audio n s.confidence
      (⟨s.sampleRate, r.2⟩, .bpmOut r.1)
  | .detectK audio n =>
      (s, .keyOut (KeyDetector.detectKey magK pc s.sampleRate audio n))

/-- Run a history of calls from a state, keeping the final state. -/
def runCalls (magB magK : (ℕ → ℚ) → ℕ → ℚ) (pc : ℚ → ℕ)
    (s : DetectorState) (calls : List DetectorCall) : DetectorState :=
  calls.foldl (fun st c => (stepCall magB magK pc st c).1) s

/-- The all-zero framer: the value of the true Hann-window/FFT/magnitude
pipeline on silent frames (window and FFT are linear, `|0| = 0`). -/
def magZero : (ℕ → ℚ) → ℕ → ℚ := fun _ _ => 0

/-- Digital silence. -/
def audioZero : ℕ → ℚ := fun _ => 0

/-- A trivial instance for the abstracted pitch-class truncation. -/
def pcZero : ℚ → ℕ := fun _ => 0

/-- A buffer that is `1` on even hop blocks and `0` on odd ones: a pulse
train with period two hops. -/
def audioPulse : ℕ → ℚ := fun i => if (i / 512) % 2 = 0 then 1 else 0

/-- A framer instance that reports the first frame sample as the bin-0
magnitude: enough to drive the onset envelope with the pulse train. -/
def magPulse : (ℕ → ℚ) → ℕ → ℚ := fun fr b => if b = 0 then fr 0 else 0

namespace BPMDetector

theorem prevSpectrumAt_magZero (audio : ℕ → ℚ) (f i : ℕ) :
    prevSpectrumAt magZero audio f i = 0 := by
  cases f <;> simp [prevSpectrumAt, spectrumAt, magZero]

theorem calculateOnsetStrength_magZero (audio : ℕ → ℚ) (n : ℕ) :
    calculateOnsetStrength magZero audio n = List.replicate (numFrames n) 0 := by
  unfold calculateOnsetStrength
  rw [show (fun f => flux (spectrumAt magZero audio f) (prevSpectrumAt magZero audio f))
      = fun _ => (0 : ℚ) from ?_]
  · simp [List.map_const']
  · funext f
    unfold flux
    rw [Finset.sum_eq_zero]
    intro i _
    simp [spectrumAt, magZero, prevSpectrumAt_magZero]

/-- On ≥ fftSize silence, the envelope is all zeros, so
`estimateTempoFromOnsets` returns its sentinel `0`, which fails the
`[40, 240]` range check, and `detectBPM` returns the fallback
`(120, 0.3)`.  (2560 samples give exactly one frame.) -/
theorem detectBPM_silence_2560 :
    detectBPM magZero 44100 audioZero 2560 (1/2) = (120, 3/10) := by
  have henv : calculateOnsetStrength magZero audioZero 2560 = [0] := by
    rw [calculateOnsetStrength_magZero]
    norm_num [numFrames, fftSize, hopSize]
  unfold detectBPM
  rw [if_neg (by norm_num [fftSize])]
  rw [henv]
  norm_num [estimateTempoFromOnsets]

/-- A short buffer leaves the confidence member untouched. -/
theorem detectBPM_short (mag : (ℕ → ℚ) → ℕ → ℚ) (sr : ℚ) (audio : ℕ → ℚ)
    (n : ℕ) (c : ℚ) (h : n < fftSize) :
    detectBPM mag sr audio n c = (0, c) := by
  unfold detectBPM
  rw [if_pos h]

end BPMDetector


namespace BPMDetector

/-- `detectBPM` with its `let` bindings expanded (zeta reduction is
definitional). -/
theorem detectBPM_eq (mag : (ℕ → ℚ) → ℕ → ℚ) (sr : ℚ) (audio : ℕ → ℚ)
    (n : ℕ) (c : ℚ) :
    detectBPM mag sr audio n c =
      if n < fftSize then (0, c)
      else if calculateOnsetStrength mag audio n = [] then (0, c)
      else if estimateTempoFromOnsets sr (calculateOnsetStrength mag audio n) < 40 ∨
          240 < estimateTempoFromOnsets sr (calculateOnsetStrength mag audio n)
        then (120, 3/10)
        else (estimateTempoFromOnsets sr (calculateOnsetStrength mag audio n),
          jlimit 0 1 (envVariance (calculateOnsetStrength mag audio n) * 10)) := rfl

/-- The returned bpm never depends on the incoming `confidence` member. -/
theorem detectBPM_fst_confidence_free (mag : (ℕ → ℚ) → ℕ → ℚ) (sr : ℚ)
    (audio : ℕ → ℚ) (n : ℕ) (c c' : ℚ) :
    (detectBPM mag sr audio n c).1 = (detectBPM mag sr audio n c').1 := by
  rw [detectBPM_eq, detectBPM_eq]
  split_ifs <;> rfl

/-- When the call reaches the range check, the written confidence does not
depend on the incoming `confidence` member either. -/
theorem detectBPM_snd_confidence_free (mag : (ℕ → ℚ) → ℕ → ℚ) (sr : ℚ)
    (audio : ℕ → ℚ) (n : ℕ) (c c' : ℚ) (hn : fftSize ≤ n)
    (henv : calculateOnsetStrength mag audio n ≠ []) :
    (detectBPM mag sr audio n c).2 = (detectBPM mag sr audio n c').2 := by
  rw [detectBPM_eq, detectBPM_eq, if_neg (not_lt.mpr hn), if_neg (not_lt.mpr hn),
    if_neg henv, if_neg henv]

end BPMDetector

/-- C5: for every buffer with `count` below the respective `fftSize`,
`detectBPM` returns bpm `0` (confidence member untouched) and `detectKey`
returns exactly the sentinel `("C", "major", 0)`. -/
theorem short_buffer_sentinels (magB magK : (ℕ → ℚ) → ℕ → ℚ) (pc : ℚ → ℕ)
    (sr : ℚ) (audio : ℕ → ℚ) (nB nK : ℕ) (c0 : ℚ)
    (hB : nB < BPMDetector.fftSize) (hK : nK < KeyDetector.fftSize) :
    BPMDetector.detectBPM magB sr audio nB c0 = (0, c0) ∧
    KeyDetector.detectKey magK pc sr audio nK =
      ("C", "major", KeyDetector.KeyConf.lit 0) ∧
    (∀ r : ℝ, KeyDetector.keyConfVal (KeyDetector.KeyConf.lit 0) r ↔ r = 0) := by
  refine ⟨BPMDetector.detectBPM_short _ _ _ _ _ hB, ?_, ?_⟩
  · unfold KeyDetector.detectKey
    rw [if_pos hK]
  · intro r
    simp [KeyDetector.keyConfVal]

/-- Witness for C5 at 100-sample buffers. -/
theorem short_buffer_sentinels_witness :
    BPMDetector.detectBPM magZero 44100 audioZero 100 (1/2) = (0, 1/2) ∧
    KeyDetector.detectKey magZero pcZero 44100 audioZero 100 =
      ("C", "major", KeyDetector.KeyConf.lit 0) ∧
    (∀ r : ℝ, KeyDetector.keyConfVal (KeyDetector.KeyConf.lit 0) r ↔ r = 0) :=
  short_buffer_sentinels magZero magZero pcZero 44100 audioZero 100 100 (1/2)
    (by norm_num [BPMDetector.fftSize]) (by norm_num [KeyDetector.fftSize])

/-- C3 counterexample: a 0-sample buffer makes `detectBPM` return bpm `0`
with the confidence member untouched, which is neither in `[40, 240]` nor
the `(120, 0.3)` fallback pair. -/
theorem detectBPM_zero_outside_claimed_range :
    BPMDetector.detectBPM magZero 44100 audioZero 0 (1/2) = (0, 1/2) ∧
    ¬((40 : ℚ) ≤ 0 ∧ (0 : ℚ) ≤ 240) ∧
    ((0 : ℚ), (1/2 : ℚ)) ≠ ((120 : ℚ), (3/10 : ℚ)) := by
  refine ⟨BPMDetector.detectBPM_short _ _ _ _ _ (by norm_num [BPMDetector.fftSize]),
    by norm_num, by simp⟩

/-- C3 amended: every `detectBPM` result is either the low-data sentinel
(bpm `0`, confidence member untouched), or exactly the fallback pair
`(120, 0.3)`, or a bpm in `[40, 240]`. -/
theorem detectBPM_result_trichotomy (mag : (ℕ → ℚ) → ℕ → ℚ) (sr : ℚ)
    (audio : ℕ → ℚ) (n : ℕ) (c0 : ℚ) :
    ((BPMDetector.detectBPM mag sr audio n c0).1 = 0 ∧
      (BPMDetector.detectBPM mag sr audio n c0).2 = c0) ∨
    BPMDetector.detectBPM mag sr audio n c0 = (120, 3/10) ∨
    (40 ≤ (BPMDetector.detectBPM mag sr audio n c0).1 ∧
      (BPMDetector.detectBPM mag sr audio n c0).1 ≤ 240) := by
  rw [BPMDetector.detectBPM_eq]
  split_ifs with h1 h2 h3
  · exact Or.inl ⟨rfl, rfl⟩
  · exact Or.inl ⟨rfl, rfl⟩
  · exact Or.inr (Or.inl rfl)
  · push_neg at h3
    exact Or.inr (Or.inr ⟨h3.1, h3.2⟩)

/-- C1 counterexample: 2560 samples of silence pass the `numSamples`
guard, produce the non-empty one-element envelope `[0]` (fewer than 10
elements), and `detectBPM` returns the fallback `(120, 0.3)` — not bpm `0`,
and the confidence member does not keep its prior value `0.5`. -/
theorem detectBPM_short_envelope_returns_fallback :
    BPMDetector.calculateOnsetStrength magZero audioZero 2560 = [0] ∧
    BPMDetector.detectBPM magZero 44100 audioZero 2560 (1/2) = (120, 3/10) ∧
    (120 : ℚ) ≠ 0 ∧ (3/10 : ℚ) ≠ 1/2 := by
  refine ⟨?_, BPMDetector.detectBPM_silence_2560, by norm_num, by norm_num⟩
  rw [BPMDetector.calculateOnsetStrength_magZero]
  norm_num [BPMDetector.numFrames, BPMDetector.fftSize, BPMDetector.hopSize]

/-- C1 amended: when the buffer passes the first two guards but the
envelope has fewer than 10 elements, or no lag strictly improves on the
initial `maxCorr = 0` (`bestLag = 0`), `estimateTempoFromOnsets` returns
its internal sentinel `0`; `0` fails the `[40, 240]` range check, so
`detectBPM` returns the fallback `(120, 0.3)` instead of bpm `0`, and the
confidence member is overwritten with `0.3`. -/
theorem detectBPM_degenerate_envelope_fallback (mag : (ℕ → ℚ) → ℕ → ℚ)
    (sr : ℚ) (audio : ℕ → ℚ) (n : ℕ) (c0 : ℚ)
    (hn : BPMDetector.fftSize ≤ n)
    (henv : BPMDetector.calculateOnsetStrength mag audio n ≠ [])
    (hdeg : (BPMDetector.calculateOnsetStrength mag audio n).length < 10 ∨
      BPMDetector.bestLagOf sr (BPMDetector.calculateOnsetStrength mag audio n) = 0) :
    BPMDetector.detectBPM mag sr audio n c0 = (120, 3/10) := by
  have hest : BPMDetector.estimateTempoFromOnsets sr
      (BPMDetector.calculateOnsetStrength mag audio n) = 0 := by
    unfold BPMDetector.estimateTempoFromOnsets
    by_cases hl : (BPMDetector.calculateOnsetStrength mag audio n).length < 10
    · rw [if_pos hl]
    · rw [if_neg hl]
      rcases hdeg with h | h
      · exact absurd h hl
      · simp [h]
  rw [BPMDetector.detectBPM_eq, if_neg (not_lt.mpr hn), if_neg henv, hest,
    if_pos (by norm_num)]

/-- Witness for the amended C1 at 2560 samples of silence. -/
theorem detectBPM_degenerate_envelope_fallback_witness :
    BPMDetector.detectBPM magZero 44100 audioZero 2560 (1/2) = (120, 3/10) := by
  have henv : BPMDetector.calculateOnsetStrength magZero audioZero 2560 = [0] := by
    rw [BPMDetector.calculateOnsetStrength_magZero]
    norm_num [BPMDetector.numFrames, BPMDetector.fftSize, BPMDetector.hopSize]
  exact detectBPM_degenerate_envelope_fallback magZero 44100 audioZero 2560 (1/2)
    (by norm_num [BPMDetector.fftSize])
    (by rw [henv]; exact List.cons_ne_nil 0 [])
    (Or.inl (by rw [henv]; norm_num))

/-- C4 counterexample: two call histories over the real detector state
machine end in the identical call `detectB audioZero 100` with the same
prepared sample rate, yet the observable confidence read back through
`getConfidence` differs (`0.3` against the untouched default `0.5`),
because the earlier silence call in the first history wrote `0.3` and the
final short-buffer call leaves the member untouched. -/
theorem getConfidence_depends_on_history :
    (runCalls magZero magZero pcZero initState
      [DetectorCall.prepare 44100, DetectorCall.detectB audioZero 2560,
        DetectorCall.detectB audioZero 100]).confidence = 3/10 ∧
    (runCalls magZero magZero pcZero initState
      [DetectorCall.prepare 44100,
        DetectorCall.detectB audioZero 100]).confidence = 1/2 ∧
    (runCalls magZero magZero pcZero initState
      [DetectorCall.prepare 44100, DetectorCall.detectB audioZero 2560,
        DetectorCall.detectB audioZero 100]).sampleRate =
      (runCalls magZero magZero pcZero initState
        [DetectorCall.prepare 44100,
          DetectorCall.detectB audioZero 100]).sampleRate ∧
    (3/10 : ℚ) ≠ 1/2 := by
  have h1 : runCalls magZero magZero pcZero initState
      [DetectorCall.prepare 44100, DetectorCall.detectB audioZero 2560,
        DetectorCall.detectB audioZero 100] =
      runCalls magZero magZero pcZero ⟨44100, 3/10⟩
        [DetectorCall.detectB audioZero 100] := by
    show runCalls magZero magZero pcZero
        ⟨44100, (BPMDetector.detectBPM magZero 44100 audioZero 2560 (1/2)).2⟩
        [DetectorCall.detectB audioZero 100] = _
    rw [BPMDetector.detectBPM_silence_2560]
  exact ⟨by rw [h1]; rfl, rfl, by rw [h1]; rfl, by norm_num⟩

/-- C4 amended: the returned bpm and the whole `detectKey` result depend
only on the call arguments and the prepared sample rate; the confidence
member read back through `getConfidence` is history-independent exactly
when the final call writes it (buffer long enough and envelope
non-empty) — on the early-return paths it keeps whatever an earlier call
left in it. -/
theorem detect_results_history_independent (magB magK : (ℕ → ℚ) → ℕ → ℚ)
    (pc : ℚ → ℕ) (s1 s2 : DetectorState) (audio : ℕ → ℚ) (n : ℕ)
    (h : s1.sampleRate = s2.sampleRate) :
    (stepCall magB magK pc s1 (DetectorCall.detectB audio n)).2 =
      (stepCall magB magK pc s2 (DetectorCall.detectB audio n)).2 ∧
    (stepCall magB magK pc s1 (DetectorCall.detectK audio n)).2 =
      (stepCall magB magK pc s2 (DetectorCall.detectK audio n)).2 ∧
    (BPMDetector.fftSize ≤ n →
      BPMDetector.calculateOnsetStrength magB audio n ≠ [] →
      (stepCall magB magK pc s1 (DetectorCall.detectB audio n)).1.confidence =
        (stepCall magB magK pc s2 (DetectorCall.detectB audio n)).1.confidence) := by
  refine ⟨?_, ?_, ?_⟩
  · simp only [stepCall, h]
    rw [BPMDetector.detectBPM_fst_confidence_free magB s2.sampleRate audio n
      s1.confidence s2.confidence]
  · simp only [stepCall, h]
  · intro hn henv
    simp only [stepCall, h]
    rw [BPMDetector.detectBPM_snd_confidence_free magB s2.sampleRate audio n
      s1.confidence s2.confidence hn henv]

/-- Witness for the amended C4: two states with equal sample rate but
different stored confidences drive the same final call to the same
observable results. -/
theorem detect_results_history_independent_witness :
    (stepCall magZero magZero pcZero ⟨44100, 3/10⟩
        (DetectorCall.detectB audioZero 2560)).2 =
      (stepCall magZero magZero pcZero ⟨44100, 1/2⟩
        (DetectorCall.detectB audioZero 2560)).2 ∧
    (stepCall magZero magZero pcZero ⟨44100, 3/10⟩
        (DetectorCall.detectK audioZero 2560)).2 =
      (stepCall magZero magZero pcZero ⟨44100, 1/2⟩
        (DetectorCall.detectK audioZero 2560)).2 ∧
    (BPMDetector.fftSize ≤ 2560 →
      BPMDetector.calculateOnsetStrength magZero audioZero 2560 ≠ [] →
      (stepCall magZero magZero pcZero ⟨44100, 3/10⟩
          (DetectorCall.detectB audioZero 2560)).1.confidence =
        (stepCall magZero magZero pcZero ⟨44100, 1/2⟩
          (DetectorCall.detectB audioZero 2560)).1.confidence) :=
  detect_results_history_independent magZero magZero pcZero
    ⟨44100, 3/10⟩ ⟨44100, 1/2⟩ audioZero 2560 rfl

namespace KeyDetector

/-- `detectKey` with its `let` bindings expanded. -/
theorem detectKey_eq (mag : (ℕ → ℚ) → ℕ → ℚ) (pc : ℚ → ℕ) (sr : ℚ)
    (audio : ℕ → ℚ) (n : ℕ) :
    detectKey mag pc sr audio n =
      if n < fftSize then ("C", "major", KeyConf.lit 0)
      else
        ((findBestKey (normalizeStep (calculateChromagram mag pc sr audio n))).1,
         (findBestKey (normalizeStep (calculateChromagram mag pc sr audio n))).2.1,
         KeyConf.fromBest
           (findBestKey (normalizeStep (calculateChromagram mag pc sr audio n))).2.2) := rfl

/-- Every chromagram slot is a sum of magnitudes, hence nonnegative when
the framer produces nonnegative magnitudes. -/
theorem calculateChromagram_nonneg (mag : (ℕ → ℚ) → ℕ → ℚ) (pc : ℚ → ℕ)
    (sr : ℚ) (audio : ℕ → ℚ) (n : ℕ) (hmag : ∀ fr b, 0 ≤ mag fr b) (k : ℕ) :
    0 ≤ calculateChromagram mag pc sr audio n k := by
  unfold calculateChromagram
  refine Finset.sum_nonneg (fun f _ => Finset.sum_nonneg (fun bin _ => ?_))
  split_ifs
  · exact hmag _ _
  · exact le_refl 0

/-- Slots at or above index 12 never receive energy: the accumulated index
is always `pc f % 12 < 12`. -/
theorem calculateChromagram_high_zero (mag : (ℕ → ℚ) → ℕ → ℚ) (pc : ℚ → ℕ)
    (sr : ℚ) (audio : ℕ → ℚ) (n : ℕ) (k : ℕ) (hk : 12 ≤ k) :
    calculateChromagram mag pc sr audio n k = 0 := by
  unfold calculateChromagram
  refine Finset.sum_eq_zero (fun f _ => Finset.sum_eq_zero (fun bin _ => ?_))
  rw [if_neg]
  rintro ⟨-, hmod⟩
  exact absurd (hmod ▸ Nat.mod_lt _ (by norm_num)) (not_lt.mpr hk)

end KeyDetector

/-- C6: after the normalization step of `detectKey`, a chromagram with
positive total sums to exactly 1 (hence within any tolerance), a
chromagram with zero total stays all-zero, and every slot is nonnegative
in both cases (the framer's magnitudes being nonnegative). -/
theorem chromagram_normalization (mag : (ℕ → ℚ) → ℕ → ℚ) (pc : ℚ → ℕ)
    (sr : ℚ) (audio : ℕ → ℚ) (n : ℕ) (hmag : ∀ fr b, 0 ≤ mag fr b) :
    (0 < KeyDetector.sum12 (KeyDetector.calculateChromagram mag pc sr audio n) →
      KeyDetector.sum12 (KeyDetector.normalizeStep
        (KeyDetector.calculateChromagram mag pc sr audio n)) = 1) ∧
    (KeyDetector.sum12 (KeyDetector.calculateChromagram mag pc sr audio n) = 0 →
      ∀ k, KeyDetector.normalizeStep
        (KeyDetector.calculateChromagram mag pc sr audio n) k = 0) ∧
    (∀ k, 0 ≤ KeyDetector.normalizeStep
      (KeyDetector.calculateChromagram mag pc sr audio n) k) := by
  set ch := KeyDetector.calculateChromagram mag pc sr audio n with hch
  have hnn : ∀ k, 0 ≤ ch k :=
    KeyDetector.calculateChromagram_nonneg mag pc sr audio n hmag
  refine ⟨?_, ?_, ?_⟩
  · intro hpos
    unfold KeyDetector.normalizeStep
    rw [if_pos hpos]
    unfold KeyDetector.sum12
    rw [← Finset.sum_div]
    exact div_self (ne_of_gt hpos)
  · intro hzero k
    unfold KeyDetector.normalizeStep
    rw [if_neg (by rw [hzero]; exact lt_irrefl 0)]
    by_cases hk : k < 12
    · have := (Finset.sum_eq_zero_iff_of_nonneg
        (fun i _ => hnn i)).mp hzero k (Finset.mem_range.mpr hk)
      exact this
    · exact KeyDetector.calculateChromagram_high_zero mag pc sr audio n k
        (not_lt.mp hk)
  · intro k
    unfold KeyDetector.normalizeStep
    split_ifs with hpos
    · exact div_nonneg (hnn k) (le_of_lt hpos)
    · exact hnn k

/-- Witness for C6 on silence (4096 samples, zero framer). -/
theorem chromagram_normalization_witness :
    (0 < KeyDetector.sum12 (KeyDetector.calculateChromagram magZero pcZero 44100 audioZero 4096) →
      KeyDetector.sum12 (KeyDetector.normalizeStep
        (KeyDetector.calculateChromagram magZero pcZero 44100 audioZero 4096)) = 1) ∧
    (KeyDetector.sum12 (KeyDetector.calculateChromagram magZero pcZero 44100 audioZero 4096) = 0 →
      ∀ k, KeyDetector.normalizeStep
        (KeyDetector.calculateChromagram magZero pcZero 44100 audioZero 4096) k = 0) ∧
    (∀ k, 0 ≤ KeyDetector.normalizeStep
      (KeyDetector.calculateChromagram magZero pcZero 44100 audioZero 4096) k) :=
  chromagram_normalization magZero pcZero 44100 audioZero 4096
    (fun _ _ => le_refl 0)

namespace KeyDetector

/-- The degenerate guard fires on the all-zero chromagram, so every
candidate correlation is `0`. -/
theorem correlationCmp_zero_left (q : ℕ → ℚ) :
    correlationCmp (fun _ => 0) q = 0 := by
  unfold correlationCmp
  rw [if_pos]
  left
  norm_num [sqDev, mean12, sum12]

/-- On the all-zero chromagram the scan keeps the first candidate that
beat the `-1` start value: root 0 major, i.e. `("C", "major")`, with
`maxCorrelation = 0`. -/
theorem findBestKey_zero : findBestKey (fun _ => 0) = ("C", "major", 0) := by
  unfold findBestKey
  rw [show List.range 12 = [0, 1, 2, 3, 4, 5, 6, 7, 8, 9, 10, 11] from rfl]
  simp only [List.foldl_cons, List.foldl_nil, stepRoot, correlationCmp_zero_left]
  norm_num [pitchClasses]

end KeyDetector

/-- C10: when the accumulated chromagram is identically zero (e.g. digital
silence) and the buffer is long enough, every candidate correlation is `0`
through the degenerate-denominator guard, and `detectKey` returns exactly
`("C", "major")` with confidence `1/2` — not the low-data sentinel `0`. -/
theorem detectKey_zero_chromagram (mag : (ℕ → ℚ) → ℕ → ℚ) (pc : ℚ → ℕ)
    (sr : ℚ) (audio : ℕ → ℚ) (n : ℕ) (hn : KeyDetector.fftSize ≤ n)
    (hch : KeyDetector.calculateChromagram mag pc sr audio n = fun _ => 0) :
    KeyDetector.detectKey mag pc sr audio n =
      ("C", "major", KeyDetector.KeyConf.fromBest 0) ∧
    (∀ r : ℝ, KeyDetector.keyConfVal (KeyDetector.KeyConf.fromBest 0) r →
      r = 1/2) := by
  constructor
  · rw [KeyDetector.detectKey_eq, if_neg (not_lt.mpr hn), hch]
    have hnorm : KeyDetector.normalizeStep (fun _ => (0 : ℚ)) = fun _ => 0 := by
      unfold KeyDetector.normalizeStep
      rw [if_neg]
      rw [show KeyDetector.sum12 (fun _ => (0 : ℚ)) = 0 by
        norm_num [KeyDetector.sum12]]
      exact lt_irrefl 0
    rw [hnorm, KeyDetector.findBestKey_zero]
  · intro r hr
    obtain ⟨u, hu, hrv⟩ := hr
    have hu' : u * |u| = 0 := by rw [hu]; norm_num
    have hu0 : u = 0 := by
      rcases lt_trichotomy u 0 with h | h | h
      · nlinarith [abs_of_neg h]
      · exact h
      · nlinarith [abs_of_pos h]
    rw [hu0] at hrv
    norm_num at hrv
    exact hrv

/-- Witness for C10 on 4096 samples of silence. -/
theorem detectKey_zero_chromagram_witness :
    KeyDetector.detectKey magZero pcZero 44100 audioZero 4096 =
      ("C", "major", KeyDetector.KeyConf.fromBest 0) ∧
    (∀ r : ℝ, KeyDetector.keyConfVal (KeyDetector.KeyConf.fromBest 0) r →
      r = 1/2) :=
  detectKey_zero_chromagram magZero pcZero 44100 audioZero 4096
    (by norm_num [KeyDetector.fftSize])
    (by
      funext k
      unfold KeyDetector.calculateChromagram
      refine Finset.sum_eq_zero (fun f _ => Finset.sum_eq_zero (fun bin _ => ?_))
      simp [magZero])

namespace KeyDetector

/-- `sqDev` is a sum of squares. -/
theorem sqDev_nonneg (x : ℕ → ℚ) : 0 ≤ sqDev x := by
  unfold sqDev sum12
  exact Finset.sum_nonneg (fun i _ => mul_self_nonneg _)

/-- The float guard `stdX < 1e-10` on `stdX = sqrt (sqDev x)` is the
rational guard `sqDev x < 1e-20`. -/
theorem sqrt_guard_iff (s : ℚ) :
    Real.sqrt (s : ℝ) < 1e-10 ↔ s < 1e-20 := by
  rw [Real.sqrt_lt' (by norm_num : (0:ℝ) < 1e-10)]
  constructor
  · intro h
    have : (s : ℝ) < ((1e-20 : ℚ) : ℝ) := by
      refine lt_of_lt_of_le h (le_of_eq ?_)
      norm_num
    exact_mod_cast this
  · intro h
    have : (s : ℝ) < ((1e-20 : ℚ) : ℝ) := by exact_mod_cast h
    refine lt_of_lt_of_le this (le_of_eq ?_)
    norm_num

end KeyDetector

/-- C8: for every pair of 12-element vectors there is exactly one value
satisfying the embedded `correlation` contract: `0` whenever either
standard deviation is below `1e-10`, and `covariance / (stdX * stdY)`
otherwise — in which case the denominator is nonzero, so the division is
guarded and total.  The executable scan encoding `correlationCmp` is the
image of that value under `t ↦ t * |t|`. -/
theorem correlation_guarded_total (x y : ℕ → ℚ) :
    ∃ c : ℝ,
      KeyDetector.correlationR x y c ∧
      (∀ c' : ℝ, KeyDetector.correlationR x y c' → c' = c) ∧
      ((KeyDetector.correlationCmp x y : ℝ) = c * |c|) ∧
      (c = 0 ∨
        (Real.sqrt (KeyDetector.sqDev x) * Real.sqrt (KeyDetector.sqDev y) ≠ 0 ∧
          c * (Real.sqrt (KeyDetector.sqDev x) * Real.sqrt (KeyDetector.sqDev y)) =
            (KeyDetector.covar x y : ℝ))) := by
  by_cases hg : Real.sqrt ((KeyDetector.sqDev x : ℚ) : ℝ) < 1e-10 ∨
      Real.sqrt ((KeyDetector.sqDev y : ℚ) : ℝ) < 1e-10
  · refine ⟨0, ⟨fun _ => rfl, fun hng => absurd hg hng⟩, ?_, ?_, Or.inl rfl⟩
    · intro c' hc'
      exact hc'.1 hg
    · have hq : KeyDetector.sqDev x < 1e-20 ∨ KeyDetector.sqDev y < 1e-20 := by
        rcases hg with h | h
        · exact Or.inl ((KeyDetector.sqrt_guard_iff _).mp h)
        · exact Or.inr ((KeyDetector.sqrt_guard_iff _).mp h)
      unfold KeyDetector.correlationCmp
      rw [if_pos hq]
      norm_num
  · have hq : ¬(KeyDetector.sqDev x < 1e-20 ∨ KeyDetector.sqDev y < 1e-20) := by
      rintro (h | h)
      · exact hg (Or.inl ((KeyDetector.sqrt_guard_iff _).mpr h))
      · exact hg (Or.inr ((KeyDetector.sqrt_guard_iff _).mpr h))
    push_neg at hg
    have hx : (0 : ℝ) < Real.sqrt (KeyDetector.sqDev x) :=
      lt_of_lt_of_le (by norm_num) hg.1
    have hy : (0 : ℝ) < Real.sqrt (KeyDetector.sqDev y) :=
      lt_of_lt_of_le (by norm_num) hg.2
    have hd : (0 : ℝ) <
        Real.sqrt (KeyDetector.sqDev x) * Real.sqrt (KeyDetector.sqDev y) :=
      mul_pos hx hy
    refine ⟨(KeyDetector.covar x y : ℝ) /
        (Real.sqrt (KeyDetector.sqDev x) * Real.sqrt (KeyDetector.sqDev y)),
      ⟨fun h => absurd h (by push_neg; exact hg), fun _ => rfl⟩, ?_, ?_, ?_⟩
    · intro c' hc'
      exact hc'.2 (by push_neg; exact hg)
    · unfold KeyDetector.correlationCmp
      rw [if_neg hq]
      have hsx : Real.sqrt (KeyDetector.sqDev x) * Real.sqrt (KeyDetector.sqDev x) =
          ((KeyDetector.sqDev x : ℚ) : ℝ) :=
        Real.mul_self_sqrt (by exact_mod_cast KeyDetector.sqDev_nonneg x)
      have hsy : Real.sqrt (KeyDetector.sqDev y) * Real.sqrt (KeyDetector.sqDev y) =
          ((KeyDetector.sqDev y : ℚ) : ℝ) :=
        Real.mul_self_sqrt (by exact_mod_cast KeyDetector.sqDev_nonneg y)
      rw [abs_div, abs_of_pos hd, div_mul_div_comm]
      rw [show Real.sqrt (KeyDetector.sqDev x) * Real.sqrt (KeyDetector.sqDev y) *
          (Real.sqrt (KeyDetector.sqDev x) * Real.sqrt (KeyDetector.sqDev y)) =
          ((KeyDetector.sqDev x : ℚ) : ℝ) * ((KeyDetector.sqDev y : ℚ) : ℝ) by
        linear_combination
          (Real.sqrt (KeyDetector.sqDev y) * Real.sqrt (KeyDetector.sqDev y)) * hsx +
          ((KeyDetector.sqDev x : ℚ) : ℝ) * hsy]
      push_cast
      ring
    · exact Or.inr ⟨ne_of_gt hd, div_mul_cancel₀ _ (ne_of_gt hd)⟩

/-- Witness for C8 at the pair (all-zero vector, major profile). -/
theorem correlation_guarded_total_witness :
    ∃ c : ℝ,
      KeyDetector.correlationR (fun _ => 0) KeyDetector.majorProfile c ∧
      (∀ c' : ℝ, KeyDetector.correlationR (fun _ => 0) KeyDetector.majorProfile c' →
        c' = c) ∧
      ((KeyDetector.correlationCmp (fun _ => 0) KeyDetector.majorProfile : ℝ) =
        c * |c|) ∧
      (c = 0 ∨
        (Real.sqrt (KeyDetector.sqDev (fun _ => 0)) *
            Real.sqrt (KeyDetector.sqDev KeyDetector.majorProfile) ≠ 0 ∧
          c * (Real.sqrt (KeyDetector.sqDev (fun _ => 0)) *
              Real.sqrt (KeyDetector.sqDev KeyDetector.majorProfile)) =
            (KeyDetector.covar (fun _ => 0) KeyDetector.majorProfile : ℝ))) :=
  correlation_guarded_total (fun _ => 0) KeyDetector.majorProfile

namespace KeyDetector

/-- Folding `max` over a list only grows the seed. -/
theorem le_foldr_max (gs : List ℚ) (a : ℚ) : a ≤ gs.foldr max a := by
  induction gs with
  | nil => exact le_refl a
  | cons x gs ih => exact le_trans ih (le_max_right x _)

/-- Every list element is bounded by the `max` fold. -/
theorem mem_le_foldr_max (gs : List ℚ) (a : ℚ) :
    ∀ x ∈ gs, x ≤ gs.foldr max a := by
  induction gs with
  | nil => intro x hx; cases hx
  | cons y gs ih =>
      intro x hx
      rw [List.foldr_cons]
      rcases List.mem_cons.mp hx with h | h
      · subst h
        exact le_max_left x _
      · exact le_trans (ih x h) (le_max_right y _)

/-- The `max` fold is bounded by any common upper bound. -/
theorem foldr_max_le (gs : List ℚ) (a b : ℚ) (ha : a ≤ b)
    (hgs : ∀ x ∈ gs, x ≤ b) : gs.foldr max a ≤ b := by
  induction gs with
  | nil => exact ha
  | cons y gs ih =>
      exact max_le (hgs y (List.mem_cons_self y gs))
        (ih (fun x hx => hgs x (List.mem_cons_of_mem y hx)))

/-- Rotating the seed of a `max` fold out of the fold. -/
theorem foldr_max_seed (gs : List ℚ) (a b : ℚ) :
    gs.foldr max (max a b) = max b (gs.foldr max a) := by
  induction gs with
  | nil => exact max_comm a b
  | cons x gs ih => rw [List.foldr_cons, List.foldr_cons, ih, max_left_comm]

/-- The first component of the strict-improvement scan is the `max` fold
of the candidate correlations over the seed. -/
theorem foldl_scanStep_fst (l : List (String × String × ℚ))
    (st : ℚ × String × String) :
    (l.foldl scanStep st).1 = (l.map (fun t => t.2.2)).foldr max st.1 := by
  induction l generalizing st with
  | nil => rfl
  | cons t l ih =>
      rw [List.foldl_cons, ih, List.map_cons, List.foldr_cons]
      have hstep : (scanStep st t).1 = max st.1 t.2.2 := by
        unfold scanStep
        split_ifs with h
        · exact (max_eq_right (le_of_lt h)).symm
        · exact (max_eq_left (not_lt.mp h)).symm
      rw [hstep, foldr_max_seed]

/-- Without a strict improvement the scan state never changes. -/
theorem foldl_scanStep_const (l : List (String × String × ℚ))
    (st : ℚ × String × String) (h : ∀ t ∈ l, t.2.2 ≤ st.1) :
    l.foldl scanStep st = st := by
  induction l with
  | nil => rfl
  | cons t l ih =>
      rw [List.foldl_cons, show scanStep st t = st from
        if_neg (not_lt.mpr (h t (List.mem_cons_self t l)))]
      exact ih (fun u hu => h u (List.mem_cons_of_mem t hu))

/-- The root loop of `findBestKey` is the candidate scan: each root
contributes its major candidate and then its minor candidate. -/
theorem foldl_stepRoot_eq_scan (c : ℕ → ℚ) (l : List ℕ)
    (st : ℚ × String × String) :
    l.foldl (stepRoot c) st = (l.flatMap (rootCands c)).foldl scanStep st := by
  induction l generalizing st with
  | nil => rfl
  | cons r l ih =>
      rw [List.foldl_cons, ih, List.flatMap_cons, List.foldl_append]
      rfl

/-- Cauchy-Schwarz keeps the encoded correlation at or above the `-1`
start value of `maxCorrelation`: in the guard case it is `0`, otherwise
`cov * |cov| / (sqDev x * sqDev y) ≥ -1` because `cov² ≤ sqDev x * sqDev
y`. -/
theorem correlationCmp_ge_neg_one (x y : ℕ → ℚ) :
    (-1 : ℚ) ≤ correlationCmp x y := by
  unfold correlationCmp
  split_ifs with h
  · norm_num
  · push_neg at h
    have hx0 : (0 : ℚ) < sqDev x := lt_of_lt_of_le (by norm_num) h.1
    have hy0 : (0 : ℚ) < sqDev y := lt_of_lt_of_le (by norm_num) h.2
    rw [le_div_iff (mul_pos hx0 hy0)]
    have hcs : covar x y * covar x y ≤ sqDev x * sqDev y := by
      have h2 := Finset.sum_mul_sq_le_sq_mul_sq (Finset.range 12)
        (fun i => x i - mean12 x) (fun i => y i - mean12 y)
      have hsx : sqDev x = ∑ i in Finset.range 12, (x i - mean12 x) ^ 2 := by
        unfold sqDev sum12
        exact Finset.sum_congr rfl (fun i _ => (pow_two _).symm)
      have hsy : sqDev y = ∑ i in Finset.range 12, (y i - mean12 y) ^ 2 := by
        unfold sqDev sum12
        exact Finset.sum_congr rfl (fun i _ => (pow_two _).symm)
      have hcov : covar x y =
          ∑ i in Finset.range 12, (x i - mean12 x) * (y i - mean12 y) := rfl
      rw [hsx, hsy, hcov]
      calc (∑ i in Finset.range 12, (x i - mean12 x) * (y i - mean12 y)) *
            (∑ i in Finset.range 12, (x i - mean12 x) * (y i - mean12 y)) =
          (∑ i in Finset.range 12, (x i - mean12 x) * (y i - mean12 y)) ^ 2 := by
            rw [pow_two]
        _ ≤ _ := h2
    rcases le_or_lt 0 (covar x y) with hc | hc
    · have : (0 : ℚ) ≤ covar x y * |covar x y| :=
        mul_nonneg hc (abs_nonneg _)
      nlinarith [mul_pos hx0 hy0]
    · rw [abs_of_neg hc]
      nlinarith

/-- Every candidate's correlation is at least `-1`. -/
theorem candidates_ge_neg_one (c : ℕ → ℚ) :
    ∀ t ∈ candidates c, (-1 : ℚ) ≤ t.2.2 := by
  intro t ht
  rcases List.mem_flatMap.mp ht with ⟨root, -, hmem⟩
  unfold rootCands at hmem
  rcases List.mem_cons.mp hmem with h | h
  · subst h
    exact correlationCmp_ge_neg_one _ _
  · rcases List.mem_cons.mp h with h' | h'
    · subst h'
      exact correlationCmp_ge_neg_one _ _
    · cases h'

/-- The strict-improvement scan lands on the first candidate attaining the
`max` fold of the correlations, provided some candidate strictly beats the
seed. -/
theorem foldl_scanStep_find (l : List (String × String × ℚ)) :
    ∀ st : ℚ × String × String, (∃ t ∈ l, st.1 < t.2.2) →
    l.find? (fun t => t.2.2 == (l.map (fun u => u.2.2)).foldr max st.1) =
      some ((l.foldl scanStep st).2.1, (l.foldl scanStep st).2.2,
        (l.foldl scanStep st).1) := by
  induction l with
  | nil =>
      intro st h
      rcases h with ⟨t, ht, -⟩
      cases ht
  | cons t l ih =>
      intro st hex
      rw [List.map_cons, List.foldr_cons, List.foldl_cons]
      by_cases hA : st.1 < t.2.2
      · rw [show scanStep st t = (t.2.2, t.1, t.2.1) from if_pos hA]
        by_cases hA1 : ∃ u ∈ l, t.2.2 < u.2.2
        · obtain ⟨u, hu, hlt⟩ := hA1
          have huM : u.2.2 ≤ (l.map (fun v => v.2.2)).foldr max st.1 :=
            mem_le_foldr_max _ _ _ (List.mem_map_of_mem _ hu)
          have htM : t.2.2 < (l.map (fun v => v.2.2)).foldr max st.1 :=
            lt_of_lt_of_le hlt huM
          rw [max_eq_right (le_of_lt htM)]
          have hne : (t.2.2 == (l.map (fun v => v.2.2)).foldr max st.1) = false :=
            beq_eq_false_iff_ne.mpr (ne_of_lt htM)
          simp only [List.find?_cons, hne, cond_false]
          have ihh := ih (t.2.2, t.1, t.2.1) ⟨u, hu, hlt⟩
          have hseed : (l.map (fun v => v.2.2)).foldr max t.2.2 =
              (l.map (fun v => v.2.2)).foldr max st.1 := by
            have h1 : (l.map (fun v => v.2.2)).foldr max (max st.1 t.2.2) =
                max t.2.2 ((l.map (fun v => v.2.2)).foldr max st.1) :=
              foldr_max_seed _ _ _
            rw [max_eq_right (le_of_lt hA)] at h1
            rw [h1, max_eq_right (le_of_lt htM)]
          rw [hseed] at ihh
          exact ihh
        · push_neg at hA1
          have hconst : l.foldl scanStep (t.2.2, t.1, t.2.1) = (t.2.2, t.1, t.2.1) :=
            foldl_scanStep_const _ _ (fun u hu => hA1 u hu)
          have hMle : (l.map (fun v => v.2.2)).foldr max st.1 ≤ t.2.2 :=
            foldr_max_le _ _ _ (le_of_lt hA)
              (fun x hx => by
                rcases List.mem_map.mp hx with ⟨u, hu, rfl⟩
                exact hA1 u hu)
          rw [max_eq_left hMle]
          rw [List.find?_cons_of_pos _ (by simp)]
          rw [hconst]
      · rw [show scanStep st t = st from if_neg hA]
        obtain ⟨u, hu, hlt⟩ := hex
        have hu' : u ∈ l := by
          rcases List.mem_cons.mp hu with h | h
          · exact absurd (h ▸ hlt) hA
          · exact h
        have hM : st.1 < (l.map (fun v => v.2.2)).foldr max st.1 :=
          lt_of_lt_of_le hlt (mem_le_foldr_max _ _ _ (List.mem_map_of_mem _ hu'))
        have htM : t.2.2 < (l.map (fun v => v.2.2)).foldr max st.1 :=
          lt_of_le_of_lt (not_lt.mp hA) hM
        rw [max_eq_right (le_of_lt htM)]
        have hne : (t.2.2 == (l.map (fun v => v.2.2)).foldr max st.1) = false :=
          beq_eq_false_iff_ne.mpr (ne_of_lt htM)
        simp only [List.find?_cons, hne, cond_false]
        exact ih st ⟨u, hu', hlt⟩

end KeyDetector

/-- C7: `findBestKey` scans the 24 root-ascending, major-before-minor
candidates with a strict-increase update, so for every chromagram the
returned `(key, mode, maxCorrelation)` is exactly the first candidate in
scan order whose correlation attains the maximum (folded with the `-1`
start value); in particular ties keep the earliest candidate. -/
theorem findBestKey_first_of_max (c : ℕ → ℚ) :
    (KeyDetector.candidates c).find?
      (fun t => t.2.2 == KeyDetector.maxCand c) =
      some (KeyDetector.findBestKey c) := by
  have hfb : KeyDetector.findBestKey c =
      (((KeyDetector.candidates c).foldl KeyDetector.scanStep (-1, "C", "major")).2.1,
       ((KeyDetector.candidates c).foldl KeyDetector.scanStep (-1, "C", "major")).2.2,
       ((KeyDetector.candidates c).foldl KeyDetector.scanStep (-1, "C", "major")).1) := by
    unfold KeyDetector.findBestKey
    rw [KeyDetector.foldl_stepRoot_eq_scan]
    unfold KeyDetector.candidates
    rfl
  by_cases hex : ∃ t ∈ KeyDetector.candidates c, (-1 : ℚ) < t.2.2
  · have h := KeyDetector.foldl_scanStep_find (KeyDetector.candidates c)
      ((-1 : ℚ), "C", "major") hex
    rw [hfb]
    exact h
  · push_neg at hex
    have hall : ∀ t ∈ KeyDetector.candidates c, t.2.2 = (-1 : ℚ) :=
      fun t ht => le_antisymm (hex t ht) (KeyDetector.candidates_ge_neg_one c t ht)
    have hconst : (KeyDetector.candidates c).foldl KeyDetector.scanStep
        ((-1 : ℚ), "C", "major") = ((-1 : ℚ), "C", "major") :=
      KeyDetector.foldl_scanStep_const _ _ (fun t ht => le_of_eq (hall t ht))
    have hmax : KeyDetector.maxCand c = -1 := by
      unfold KeyDetector.maxCand
      refine le_antisymm (KeyDetector.foldr_max_le _ _ _ (le_refl _) ?_)
        (KeyDetector.le_foldr_max _ _)
      intro x hx
      rcases List.mem_map.mp hx with ⟨t, ht, rfl⟩
      exact hex t ht
    obtain ⟨t, ts, hcons⟩ : ∃ t ts, KeyDetector.candidates c = t :: ts := by
      cases hc : KeyDetector.candidates c with
      | nil =>
          have : (KeyDetector.candidates c).length = 24 := by
            rw [show KeyDetector.candidates c =
              ([0,1,2,3,4,5,6,7,8,9,10,11] : List ℕ).flatMap
                (KeyDetector.rootCands c) from rfl]
            simp [KeyDetector.rootCands]
          rw [hc] at this
          cases this
      | cons a as => exact ⟨a, as, rfl⟩
    have hhead : (KeyDetector.candidates c).head? =
        some (KeyDetector.pitchClasses 0, "major",
          KeyDetector.correlationCmp c
            (fun i => KeyDetector.majorProfile ((i + 0) % 12))) := rfl
    rw [hcons] at hhead
    have ht : t = (KeyDetector.pitchClasses 0, "major",
        KeyDetector.correlationCmp c
          (fun i => KeyDetector.majorProfile ((i + 0) % 12))) :=
      Option.some.inj hhead
    have htmem : t ∈ KeyDetector.candidates c := by
      rw [hcons]
      exact List.mem_cons_self t ts
    have hpt : (t.2.2 == KeyDetector.maxCand c) = true := by
      rw [hall t htmem, hmax]
      simp
    have h1 : t.1 = "C" := by rw [ht]; rfl
    have h2 : t.2.1 = "major" := by rw [ht]
    have h3 : t.2.2 = (-1 : ℚ) := hall t htmem
    rw [hfb, hconst, hcons]
    simp only [List.find?_cons, hpt, cond_true]
    rw [show t = ("C", "major", (-1 : ℚ)) from by rw [← h1, ← h2, ← h3]]

set_option maxHeartbeats 4000000 in
/-- C2 (evidence at the failing input): a pure 440 Hz tone maps to pitch
class index 9 ("A") — the embedded `frequencyToPitchClass` contract
`pcSpec 440 9` holds — yet on a chromagram whose energy is concentrated at
index 9 the rotation `rotated[i] = profile[(i + root) % 12]` aligns the
tonic profile weight with root 3, so `findBestKey` selects "D#" major,
not an A-rooted key. -/
theorem findBestKey_delta9_returns_Dsharp :
    KeyDetector.pcSpec 440 9 ∧
    KeyDetector.pitchClasses 9 = "A" ∧
    KeyDetector.findBestKey (fun i => if i = 9 then (1 : ℚ) else 0) =
      ("D#", "major", (1315609 : ℚ) / 2808113) ∧
    ("D#" : String) ≠ "A" := by
  refine ⟨?_, rfl, ?_, by decide⟩
  · unfold KeyDetector.pcSpec
    rw [show ((440 : ℚ) : ℝ) / 440 = 1 by norm_num, Real.logb_one, mul_zero,
      add_zero]
    rw [show ((69 : ℝ)) = ((69 : ℤ) : ℝ) by norm_num, Int.floor_intCast]
    decide
  · unfold KeyDetector.findBestKey
    rw [show List.range 12 = [0, 1, 2, 3, 4, 5, 6, 7, 8, 9, 10, 11] from rfl]
    simp only [List.foldl_cons, List.foldl_nil]
    have h0M : KeyDetector.correlationCmp (fun i => if i = 9 then (1 : ℚ) else 0)
        (fun i => KeyDetector.majorProfile (i % 12)) = ((5041 : ℚ) / 2808113) := by
      norm_num [KeyDetector.correlationCmp, KeyDetector.sqDev, KeyDetector.covar,
        KeyDetector.mean12, KeyDetector.sum12, KeyDetector.majorProfile,
        Finset.sum_range_succ, abs_of_pos, abs_of_nonpos]
    have h0m : KeyDetector.correlationCmp (fun i => if i = 9 then (1 : ℚ) else 0)
        (fun i => KeyDetector.minorProfile (i % 12)) = (-(1495729 : ℚ) / 21129361) := by
      norm_num [KeyDetector.correlationCmp, KeyDetector.sqDev, KeyDetector.covar,
        KeyDetector.mean12, KeyDetector.sum12, KeyDetector.minorProfile,
        Finset.sum_range_succ, abs_of_pos, abs_of_nonpos]
    have h1M : KeyDetector.correlationCmp (fun i => if i = 9 then (1 : ℚ) else 0)
        (fun i => KeyDetector.majorProfile ((i + 1) % 12)) = (-(227529 : ℚ) / 2808113) := by
      norm_num [KeyDetector.correlationCmp, KeyDetector.sqDev, KeyDetector.covar,
        KeyDetector.mean12, KeyDetector.sum12, KeyDetector.majorProfile,
        Finset.sum_range_succ, abs_of_pos, abs_of_nonpos]
    have h1m : KeyDetector.correlationCmp (fun i => if i = 9 then (1 : ℚ) else 0)
        (fun i => KeyDetector.minorProfile ((i + 1) % 12)) = (-(196249 : ℚ) / 21129361) := by
      norm_num [KeyDetector.correlationCmp, KeyDetector.sqDev, KeyDetector.covar,
        KeyDetector.mean12, KeyDetector.sum12, KeyDetector.minorProfile,
        Finset.sum_range_succ, abs_of_pos, abs_of_nonpos]
    have h2M : KeyDetector.correlationCmp (fun i => if i = 9 then (1 : ℚ) else 0)
        (fun i => KeyDetector.majorProfile ((i + 2) % 12)) = (-(58081 : ℚ) / 2808113) := by
      norm_num [KeyDetector.correlationCmp, KeyDetector.sqDev, KeyDetector.covar,
        KeyDetector.mean12, KeyDetector.sum12, KeyDetector.majorProfile,
        Finset.sum_range_succ, abs_of_pos, abs_of_nonpos]
    have h2m : KeyDetector.correlationCmp (fun i => if i = 9 then (1 : ℚ) else 0)
        (fun i => KeyDetector.minorProfile ((i + 2) % 12)) = (-(418609 : ℚ) / 21129361) := by
      norm_num [KeyDetector.correlationCmp, KeyDetector.sqDev, KeyDetector.covar,
        KeyDetector.mean12, KeyDetector.sum12, KeyDetector.minorProfile,
        Finset.sum_range_succ, abs_of_pos, abs_of_nonpos]
    have h3M : KeyDetector.correlationCmp (fun i => if i = 9 then (1 : ℚ) else 0)
        (fun i => KeyDetector.majorProfile ((i + 3) % 12)) = ((1315609 : ℚ) / 2808113) := by
      norm_num [KeyDetector.correlationCmp, KeyDetector.sqDev, KeyDetector.covar,
        KeyDetector.mean12, KeyDetector.sum12, KeyDetector.majorProfile,
        Finset.sum_range_succ, abs_of_pos, abs_of_nonpos]
    have h3m : KeyDetector.correlationCmp (fun i => if i = 9 then (1 : ℚ) else 0)
        (fun i => KeyDetector.minorProfile ((i + 3) % 12)) = ((9891025 : ℚ) / 21129361) := by
      norm_num [KeyDetector.correlationCmp, KeyDetector.sqDev, KeyDetector.covar,
        KeyDetector.mean12, KeyDetector.sum12, KeyDetector.minorProfile,
        Finset.sum_range_succ, abs_of_pos, abs_of_nonpos]
    have h4M : KeyDetector.correlationCmp (fun i => if i = 9 then (1 : ℚ) else 0)
        (fun i => KeyDetector.majorProfile ((i + 4) % 12)) = (-(251001 : ℚ) / 2808113) := by
      norm_num [KeyDetector.correlationCmp, KeyDetector.sqDev, KeyDetector.covar,
        KeyDetector.mean12, KeyDetector.sum12, KeyDetector.majorProfile,
        Finset.sum_range_succ, abs_of_pos, abs_of_nonpos]
    have h4m : KeyDetector.correlationCmp (fun i => if i = 9 then (1 : ℚ) else 0)
        (fun i => KeyDetector.minorProfile ((i + 4) % 12)) = (-(1525225 : ℚ) / 21129361) := by
      norm_num [KeyDetector.correlationCmp, KeyDetector.sqDev, KeyDetector.covar,
        KeyDetector.mean12, KeyDetector.sum12, KeyDetector.minorProfile,
        Finset.sum_range_succ, abs_of_pos, abs_of_nonpos]
    have h5M : KeyDetector.correlationCmp (fun i => if i = 9 then (1 : ℚ) else 0)
        (fun i => KeyDetector.majorProfile ((i + 5) % 12)) = (-(1 : ℚ) / 2808113) := by
      norm_num [KeyDetector.correlationCmp, KeyDetector.sqDev, KeyDetector.covar,
        KeyDetector.mean12, KeyDetector.sum12, KeyDetector.majorProfile,
        Finset.sum_range_succ, abs_of_pos, abs_of_nonpos]
    have h5m : KeyDetector.correlationCmp (fun i => if i = 9 then (1 : ℚ) else 0)
        (fun i => KeyDetector.minorProfile ((i + 5) % 12)) = (-(51529 : ℚ) / 21129361) := by
      norm_num [KeyDetector.correlationCmp, KeyDetector.sqDev, KeyDetector.covar,
        KeyDetector.mean12, KeyDetector.sum12, KeyDetector.minorProfile,
        Finset.sum_range_succ, abs_of_pos, abs_of_nonpos]
    have h6M : KeyDetector.correlationCmp (fun i => if i = 9 then (1 : ℚ) else 0)
        (fun i => KeyDetector.majorProfile ((i + 6) % 12)) = (-(212521 : ℚ) / 2808113) := by
      norm_num [KeyDetector.correlationCmp, KeyDetector.sqDev, KeyDetector.covar,
        KeyDetector.mean12, KeyDetector.sum12, KeyDetector.majorProfile,
        Finset.sum_range_succ, abs_of_pos, abs_of_nonpos]
    have h6m : KeyDetector.correlationCmp (fun i => if i = 9 then (1 : ℚ) else 0)
        (fun i => KeyDetector.minorProfile ((i + 6) % 12)) = ((4020025 : ℚ) / 21129361) := by
      norm_num [KeyDetector.correlationCmp, KeyDetector.sqDev, KeyDetector.covar,
        KeyDetector.mean12, KeyDetector.sum12, KeyDetector.minorProfile,
        Finset.sum_range_succ, abs_of_pos, abs_of_nonpos]
    have h7M : KeyDetector.correlationCmp (fun i => if i = 9 then (1 : ℚ) else 0)
        (fun i => KeyDetector.majorProfile ((i + 7) % 12)) = ((128881 : ℚ) / 2808113) := by
      norm_num [KeyDetector.correlationCmp, KeyDetector.sqDev, KeyDetector.covar,
        KeyDetector.mean12, KeyDetector.sum12, KeyDetector.majorProfile,
        Finset.sum_range_succ, abs_of_pos, abs_of_nonpos]
    have h7m : KeyDetector.correlationCmp (fun i => if i = 9 then (1 : ℚ) else 0)
        (fun i => KeyDetector.minorProfile ((i + 7) % 12)) = (-(161051 : ℚ) / 1920851) := by
      norm_num [KeyDetector.correlationCmp, KeyDetector.sqDev, KeyDetector.covar,
        KeyDetector.mean12, KeyDetector.sum12, KeyDetector.minorProfile,
        Finset.sum_range_succ, abs_of_pos, abs_of_nonpos]
    have h8M : KeyDetector.correlationCmp (fun i => if i = 9 then (1 : ℚ) else 0)
        (fun i => KeyDetector.majorProfile ((i + 8) % 12)) = ((59049 : ℚ) / 2808113) := by
      norm_num [KeyDetector.correlationCmp, KeyDetector.sqDev, KeyDetector.covar,
        KeyDetector.mean12, KeyDetector.sum12, KeyDetector.majorProfile,
        Finset.sum_range_succ, abs_of_pos, abs_of_nonpos]
    have h8m : KeyDetector.correlationCmp (fun i => if i = 9 then (1 : ℚ) else 0)
        (fun i => KeyDetector.minorProfile ((i + 8) % 12)) = (-(46225 : ℚ) / 21129361) := by
      norm_num [KeyDetector.correlationCmp, KeyDetector.sqDev, KeyDetector.covar,
        KeyDetector.mean12, KeyDetector.sum12, KeyDetector.minorProfile,
        Finset.sum_range_succ, abs_of_pos, abs_of_nonpos]
    have h9M : KeyDetector.correlationCmp (fun i => if i = 9 then (1 : ℚ) else 0)
        (fun i => KeyDetector.majorProfile ((i + 9) % 12)) = (-(1925 : ℚ) / 36469) := by
      norm_num [KeyDetector.correlationCmp, KeyDetector.sqDev, KeyDetector.covar,
        KeyDetector.mean12, KeyDetector.sum12, KeyDetector.majorProfile,
        Finset.sum_range_succ, abs_of_pos, abs_of_nonpos]
    have h9m : KeyDetector.correlationCmp (fun i => if i = 9 then (1 : ℚ) else 0)
        (fun i => KeyDetector.minorProfile ((i + 9) % 12)) = (-(1968409 : ℚ) / 21129361) := by
      norm_num [KeyDetector.correlationCmp, KeyDetector.sqDev, KeyDetector.covar,
        KeyDetector.mean12, KeyDetector.sum12, KeyDetector.minorProfile,
        Finset.sum_range_succ, abs_of_pos, abs_of_nonpos]
    have h10M : KeyDetector.correlationCmp (fun i => if i = 9 then (1 : ℚ) else 0)
        (fun i => KeyDetector.majorProfile ((i + 10) % 12)) = ((466489 : ℚ) / 2808113) := by
      norm_num [KeyDetector.correlationCmp, KeyDetector.sqDev, KeyDetector.covar,
        KeyDetector.mean12, KeyDetector.sum12, KeyDetector.majorProfile,
        Finset.sum_range_succ, abs_of_pos, abs_of_nonpos]
    have h10m : KeyDetector.correlationCmp (fun i => if i = 9 then (1 : ℚ) else 0)
        (fun i => KeyDetector.minorProfile ((i + 10) % 12)) = ((1560001 : ℚ) / 21129361) := by
      norm_num [KeyDetector.correlationCmp, KeyDetector.sqDev, KeyDetector.covar,
        KeyDetector.mean12, KeyDetector.sum12, KeyDetector.minorProfile,
        Finset.sum_range_succ, abs_of_pos, abs_of_nonpos]
    have h11M : KeyDetector.correlationCmp (fun i => if i = 9 then (1 : ℚ) else 0)
        (fun i => KeyDetector.majorProfile ((i + 11) % 12)) = (-(190969 : ℚ) / 2808113) := by
      norm_num [KeyDetector.correlationCmp, KeyDetector.sqDev, KeyDetector.covar,
        KeyDetector.mean12, KeyDetector.sum12, KeyDetector.majorProfile,
        Finset.sum_range_succ, abs_of_pos, abs_of_nonpos]
    have h11m : KeyDetector.correlationCmp (fun i => if i = 9 then (1 : ℚ) else 0)
        (fun i => KeyDetector.minorProfile ((i + 11) % 12)) = ((105625 : ℚ) / 21129361) := by
      norm_num [KeyDetector.correlationCmp, KeyDetector.sqDev, KeyDetector.covar,
        KeyDetector.mean12, KeyDetector.sum12, KeyDetector.minorProfile,
        Finset.sum_range_succ, abs_of_pos, abs_of_nonpos]
    have st0 : KeyDetector.stepRoot (fun i => if i = 9 then (1 : ℚ) else 0)
        ((-1 : ℚ), "C", "major") 0 =
        (((5041 : ℚ) / 2808113), "C", "major") := by
      norm_num [KeyDetector.stepRoot, h0M, h0m, KeyDetector.pitchClasses]
    have st1 : KeyDetector.stepRoot (fun i => if i = 9 then (1 : ℚ) else 0)
        (((5041 : ℚ) / 2808113), "C", "major") 1 =
        (((5041 : ℚ) / 2808113), "C", "major") := by
      norm_num [KeyDetector.stepRoot, h1M, h1m, KeyDetector.pitchClasses]
    have st2 : KeyDetector.stepRoot (fun i => if i = 9 then (1 : ℚ) else 0)
        (((5041 : ℚ) / 2808113), "C", "major") 2 =
        (((5041 : ℚ) / 2808113), "C", "major") := by
      norm_num [KeyDetector.stepRoot, h2M, h2m, KeyDetector.pitchClasses]
    have st3 : KeyDetector.stepRoot (fun i => if i = 9 then (1 : ℚ) else 0)
        (((5041 : ℚ) / 2808113), "C", "major") 3 =
        (((1315609 : ℚ) / 2808113), "D#", "major") := by
      norm_num [KeyDetector.stepRoot, h3M, h3m, KeyDetector.pitchClasses]
    have st4 : KeyDetector.stepRoot (fun i => if i = 9 then (1 : ℚ) else 0)
        (((1315609 : ℚ) / 2808113), "D#", "major") 4 =
        (((1315609 : ℚ) / 2808113), "D#", "major") := by
      norm_num [KeyDetector.stepRoot, h4M, h4m, KeyDetector.pitchClasses]
    have st5 : KeyDetector.stepRoot (fun i => if i = 9 then (1 : ℚ) else 0)
        (((1315609 : ℚ) / 2808113), "D#", "major") 5 =
        (((1315609 : ℚ) / 2808113), "D#", "major") := by
      norm_num [KeyDetector.stepRoot, h5M, h5m, KeyDetector.pitchClasses]
    have st6 : KeyDetector.stepRoot (fun i => if i = 9 then (1 : ℚ) else 0)
        (((1315609 : ℚ) / 2808113), "D#", "major") 6 =
        (((1315609 : ℚ) / 2808113), "D#", "major") := by
      norm_num [KeyDetector.stepRoot, h6M, h6m, KeyDetector.pitchClasses]
    have st7 : KeyDetector.stepRoot (fun i => if i = 9 then (1 : ℚ) else 0)
        (((1315609 : ℚ) / 2808113), "D#", "major") 7 =
        (((1315609 : ℚ) / 2808113), "D#", "major") := by
      norm_num [KeyDetector.stepRoot, h7M, h7m, KeyDetector.pitchClasses]
    have st8 : KeyDetector.stepRoot (fun i => if i = 9 then (1 : ℚ) else 0)
        (((1315609 : ℚ) / 2808113), "D#", "major") 8 =
        (((1315609 : ℚ) / 2808113), "D#", "major") := by
      norm_num [KeyDetector.stepRoot, h8M, h8m, KeyDetector.pitchClasses]
    have st9 : KeyDetector.stepRoot (fun i => if i = 9 then (1 : ℚ) else 0)
        (((1315609 : ℚ) / 2808113), "D#", "major") 9 =
        (((1315609 : ℚ) / 2808113), "D#", "major") := by
      norm_num [KeyDetector.stepRoot, h9M, h9m, KeyDetector.pitchClasses]
    have st10 : KeyDetector.stepRoot (fun i => if i = 9 then (1 : ℚ) else 0)
        (((1315609 : ℚ) / 2808113), "D#", "major") 10 =
        (((1315609 : ℚ) / 2808113), "D#", "major") := by
      norm_num [KeyDetector.stepRoot, h10M, h10m, KeyDetector.pitchClasses]
    have st11 : KeyDetector.stepRoot (fun i => if i = 9 then (1 : ℚ) else 0)
        (((1315609 : ℚ) / 2808113), "D#", "major") 11 =
        (((1315609 : ℚ) / 2808113), "D#", "major") := by
      norm_num [KeyDetector.stepRoot, h11M, h11m, KeyDetector.pitchClasses]
    rw [st0, st1, st2, st3, st4, st5, st6, st7, st8, st9, st10, st11]

/-- C9: when the raw tempo estimate lands inside `[40, 240]`, `detectBPM`
returns it together with the confidence `jlimit 0 1 (variance * 10)`,
where the variance is the population variance of the onset envelope (the
mean of the squared deviations from the envelope mean, `envVariance`). -/
theorem detectBPM_confidence_from_variance (mag : (ℕ → ℚ) → ℕ → ℚ) (sr : ℚ)
    (audio : ℕ → ℚ) (n : ℕ) (c0 : ℚ)
    (hn : BPMDetector.fftSize ≤ n)
    (henv : BPMDetector.calculateOnsetStrength mag audio n ≠ [])
    (hlo : 40 ≤ BPMDetector.estimateTempoFromOnsets sr
      (BPMDetector.calculateOnsetStrength mag audio n))
    (hhi : BPMDetector.estimateTempoFromOnsets sr
      (BPMDetector.calculateOnsetStrength mag audio n) ≤ 240) :
    BPMDetector.detectBPM mag sr audio n c0 =
      (BPMDetector.estimateTempoFromOnsets sr
        (BPMDetector.calculateOnsetStrength mag audio n),
       jlimit 0 1 (BPMDetector.envVariance
        (BPMDetector.calculateOnsetStrength mag audio n) * 10)) := by
  rw [BPMDetector.detectBPM_eq, if_neg (not_lt.mpr hn), if_neg henv,
    if_neg (by push_neg; exact ⟨hlo, hhi⟩)]

namespace BPMDetector

/-- Flux of spectra supported on bin 0 only. -/
theorem flux_indicator (s p : ℕ → ℚ) (hs : ∀ i, i ≠ 0 → s i = 0)
    (hp : ∀ i, i ≠ 0 → p i = 0) :
    flux s p = max 0 (s 0 - p 0) := by
  unfold flux
  rw [Finset.sum_eq_single 0]
  · intro b _ hb
    rw [hs b hb, hp b hb]
    norm_num
  · intro h
    exact absurd (Finset.mem_range.mpr (by norm_num [fftSize])) h

/-- The pulse-train instance: the spectrum of frame `f` is `1` on bin 0
for even frames and `0` otherwise. -/
theorem spectrumAt_pulse (f : ℕ) :
    spectrumAt magPulse audioPulse f =
      fun b => if b = 0 then (if f % 2 = 0 then (1 : ℚ) else 0) else 0 := by
  funext b
  simp only [spectrumAt, frameAt, magPulse, audioPulse, hopSize]
  have harith : (f * 512 + 0) / 512 = f := by omega
  simp only [harith]

/-- Per-frame flux of the pulse train: `1` on even frames, `0` on odd. -/
theorem flux_pulse (f : ℕ) :
    flux (spectrumAt magPulse audioPulse f) (prevSpectrumAt magPulse audioPulse f) =
      if f % 2 = 0 then (1 : ℚ) else 0 := by
  match f with
  | 0 =>
      rw [show prevSpectrumAt magPulse audioPulse 0 = fun _ => 0 from rfl,
        spectrumAt_pulse 0]
      rw [flux_indicator _ _ (fun i hi => by simp [hi]) (fun i _ => rfl)]
      norm_num
  | f + 1 =>
      rw [show prevSpectrumAt magPulse audioPulse (f + 1) =
        spectrumAt magPulse audioPulse f from rfl,
        spectrumAt_pulse f, spectrumAt_pulse (f + 1)]
      rw [flux_indicator _ _ (fun i hi => by simp [hi]) (fun i hi => by simp [hi])]
      rcases Nat.mod_two_eq_zero_or_one f with h | h
      · have h1 : (f + 1) % 2 = 1 := by omega
        rw [h, h1]
        norm_num
      · have h1 : (f + 1) % 2 = 0 := by omega
        rw [h, h1]
        norm_num

/-- The onset envelope of the pulse train at 7168 samples: ten frames
alternating `1, 0`. -/
theorem onset_pulse :
    calculateOnsetStrength magPulse audioPulse 7168 =
      [1, 0, 1, 0, 1, 0, 1, 0, 1, 0] := by
  unfold calculateOnsetStrength
  rw [show numFrames 7168 = 10 by norm_num [numFrames, fftSize, hopSize]]
  rw [show List.range 10 = [0, 1, 2, 3, 4, 5, 6, 7, 8, 9] from rfl]
  simp only [List.map_cons, List.map_nil, flux_pulse]
  norm_num

end BPMDetector

namespace BPMDetector

/-- `static_cast<int>` is the identity on whole numbers. -/
theorem cppTrunc_natCast (m : ℕ) : cppTrunc (m : ℚ) = m := by
  unfold cppTrunc
  rw [Rat.num_natCast, Rat.den_natCast]
  simp [Int.tdiv_one]

/-- At sample rate 4096 and envelope length 10 the search visits lags
`[2, 3, 4]`: `framesPerSecond = 8`, `minLag = 2`, `maxLagRange = min 12 5`. -/
theorem searchLags_eq (sr : ℚ) (len : ℕ) :
    searchLags sr len =
      List.range' ((cppTrunc (sr / (hopSize : ℚ) * 60 / 240)).toNat)
        (min ((cppTrunc (sr / (hopSize : ℚ) * 60 / 40)).toNat) (len / 2) -
          (cppTrunc (sr / (hopSize : ℚ) * 60 / 240)).toNat) := rfl

/-- At sample rate 4096 and envelope length 10 the search visits lags
`[2, 3, 4]`. -/
theorem searchLags_pulse : searchLags 4096 10 = [2, 3, 4] := by
  rw [searchLags_eq]
  rw [show (4096 : ℚ) / (hopSize : ℚ) * 60 / 240 = ((2 : ℕ) : ℚ) by
    norm_num [hopSize]]
  rw [show (4096 : ℚ) / (hopSize : ℚ) * 60 / 40 = ((12 : ℕ) : ℚ) by
    norm_num [hopSize]]
  rw [cppTrunc_natCast 2, cppTrunc_natCast 12]
  decide

theorem autocorr_pulse_two :
    autocorrelate [1, 0, 1, 0, 1, 0, 1, 0, 1, 0] 2 = 1/2 := by
  norm_num [autocorrelate, Finset.sum_range_succ, List.getD_cons_zero,
    List.getD_cons_succ]

theorem autocorr_pulse_three :
    autocorrelate [1, 0, 1, 0, 1, 0, 1, 0, 1, 0] 3 = 0 := by
  norm_num [autocorrelate, Finset.sum_range_succ, List.getD_cons_zero,
    List.getD_cons_succ]

theorem autocorr_pulse_four :
    autocorrelate [1, 0, 1, 0, 1, 0, 1, 0, 1, 0] 4 = 1/2 := by
  norm_num [autocorrelate, Finset.sum_range_succ, List.getD_cons_zero,
    List.getD_cons_succ]

/-- Lag 2 wins the strict-improvement search (lag 4 ties and is
discarded). -/
theorem bestLag_pulse : bestLagOf 4096 [1, 0, 1, 0, 1, 0, 1, 0, 1, 0] = 2 := by
  unfold bestLagOf
  rw [show ([1, 0, 1, 0, 1, 0, 1, 0, 1, 0] : List ℚ).length = 10 from rfl,
    searchLags_pulse]
  unfold lagSearch
  simp only [List.foldl_cons, List.foldl_nil, autocorr_pulse_two,
    autocorr_pulse_three, autocorr_pulse_four]
  norm_num

/-- `estimateTempoFromOnsets` with its `let` bindings expanded. -/
theorem estimateTempoFromOnsets_eq (sr : ℚ) (l : List ℚ) :
    estimateTempoFromOnsets sr l =
      if l.length < 10 then 0
      else if bestLagOf sr l = 0 then 0
      else 1 / (bestLagOf sr l : ℚ) * (sr / (hopSize : ℚ)) * 60 := rfl

/-- The pulse train's recovered tempo: `60 * 8 / 2 = 240` BPM. -/
theorem estimate_pulse :
    estimateTempoFromOnsets 4096 [1, 0, 1, 0, 1, 0, 1, 0, 1, 0] = 240 := by
  rw [estimateTempoFromOnsets_eq, if_neg (by norm_num), bestLag_pulse]
  norm_num [hopSize]

/-- Population variance of the alternating envelope. -/
theorem envVar_pulse : envVariance [1, 0, 1, 0, 1, 0, 1, 0, 1, 0] = 1/4 := by
  norm_num [envVariance, envMean]

end BPMDetector

/-- Witness for C9: the pulse-train buffer at sample rate 4096 estimates
240 BPM (in range), and the returned confidence is
`jlimit 0 1 ((1/4) * 10) = 1`. -/
theorem detectBPM_confidence_from_variance_witness :
    BPMDetector.detectBPM magPulse 4096 audioPulse 7168 (1/2) = (240, 1) := by
  have h := detectBPM_confidence_from_variance magPulse 4096 audioPulse 7168 (1/2)
    (by norm_num [BPMDetector.fftSize])
    (by rw [BPMDetector.onset_pulse]; exact List.cons_ne_nil _ _)
    (by rw [BPMDetector.onset_pulse, BPMDetector.estimate_pulse]; norm_num)
    (by rw [BPMDetector.onset_pulse, BPMDetector.estimate_pulse])
  rw [h, BPMDetector.onset_pulse, BPMDetector.estimate_pulse,
    BPMDetector.envVar_pulse]
  norm_num [jlimit]
